import Mathlib

set_option maxHeartbeats 1000000

namespace Abc

/-- Token indicating which abstract bee should do work next (src/task.rs, enum Task). -/
inductive Task where
  | Worker : Nat → Task
  | Observer : Nat → Task
deriving DecidableEq

/-- Task iterator state (src/task.rs, struct TaskGenerator). -/
structure TaskGenerator where
  workers : Nat
  observers : Nat
  next : Task
  max_rounds : Option Nat
  stopped : Bool
  round : Nat
deriving DecidableEq

/-- TaskGenerator::new (src/task.rs:23-33). The Rust constructor asserts
workers > 0; theorems carry that hypothesis explicitly. -/
def TaskGenerator.new (workers observers : Nat) : TaskGenerator :=
  { workers := workers, observers := observers, round := 0,
    max_rounds := none, next := Task.Worker 0, stopped := false }

/-- TaskGenerator::max_rounds (src/task.rs:35-38); primed because the
structure field of the same name already claims the plain name. -/
def TaskGenerator.max_rounds' (g : TaskGenerator) (m : Nat) : TaskGenerator :=
  { g with max_rounds := some m }

/-- TaskGenerator::stop (src/task.rs:40-42). -/
def TaskGenerator.stop (g : TaskGenerator) : TaskGenerator :=
  { g with stopped := true }

/-- Iterator::next for TaskGenerator (src/task.rs:48-79): returns the emitted
token (None when stopped) together with the successor state. -/
def TaskGenerator.next' (g : TaskGenerator) : Option Task × TaskGenerator :=
  if g.stopped then (none, g)
  else
    let g' :=
      match g.next with
      | Task.Worker n =>
        if n = g.workers - 1 then
          if 0 < g.observers then { g with next := Task.Observer 0 }
          else { g with next := Task.Worker 0 }
        else { g with next := Task.Worker (n + 1) }
      | Task.Observer n =>
        if n = g.observers - 1 then
          let round := g.round + 1
          let stopped :=
            match g.max_rounds with
            | some m => decide (m ≤ round)
            | none => false
          { g with next := Task.Worker 0, round := round, stopped := stopped }
        else { g with next := Task.Observer (n + 1) }
    (some g.next, g')

/-- State of the generator after i calls to Iterator::next. -/
def TaskGenerator.stepN (g : TaskGenerator) : Nat → TaskGenerator
  | 0 => g
  | k + 1 => (g.stepN k).next'.2

/-- The token emitted by the i-th (0-based) call to Iterator::next. -/
def TaskGenerator.output (g : TaskGenerator) (i : Nat) : Option Task :=
  (g.stepN i).next'.1

/-- The generator installed by Swarm::run_for_rounds (src/hive.rs:271). -/
def roundsGenerator (w o r : Nat) : TaskGenerator :=
  (TaskGenerator.new w o).max_rounds' r

/-- The token at position p of one scheduling cycle: workers first, then
observers. -/
def cycleTask (w p : Nat) : Task :=
  if p < w then Task.Worker p else Task.Observer (p - w)

/-- Abbreviation for an in-flight generator state with explicit cursor,
stop flag and round counter. -/
def midGen (w o r ρ : Nat) (t : Task) (st : Bool) : TaskGenerator :=
  { workers := w, observers := o, next := t, max_rounds := some r,
    stopped := st, round := ρ }

/-- Modelled from the spec: candidate.rs is not under src/. A Candidate is
a solution value paired with its scalar fitness (spec section 3); fitness is
an f64 in the code and is modelled here as a rational, since only ordering
and addition of fitness values matter to the engine. -/
structure Candidate (S : Type) where
  solution : S
  fitness : ℚ
deriving DecidableEq

/-- Modelled from the spec: candidate.rs is not under src/. A
WorkingCandidate wraps a candidate with a remaining-retry counter
(spec section 3). -/
structure WorkingCandidate (S : Type) where
  candidate : Candidate S
  retries_remaining : Nat
deriving DecidableEq

/-- Modelled from the spec: WorkingCandidate::new starts the counter at the
configured retry budget each time the wrapped candidate is installed. -/
def WorkingCandidate.new {S : Type} (c : Candidate S) (retries : Nat) :
    WorkingCandidate S :=
  { candidate := c, retries_remaining := retries }

/-- Modelled from the spec: deplete decrements the counter by one on a
rejected refinement; the counter never goes negative (Nat subtraction). -/
def WorkingCandidate.deplete {S : Type} (w : WorkingCandidate S) :
    WorkingCandidate S :=
  { w with retries_remaining := w.retries_remaining - 1 }

/-- Modelled from the spec: a working candidate is expired when its
remaining-retry counter has reached zero. -/
def WorkingCandidate.expired {S : Type} (w : WorkingCandidate S) : Bool :=
  w.retries_remaining == 0

/-- Modelled from the spec: the external solution capability set
(solution.rs and scaling.rs are not under src/). `make` consumes the
serialized builder, modelled as a counter into a stream of solutions;
`explore` produces a neighbourhood solution from a population snapshot and
a target index; `evaluate_fitness` derives the scalar fitness stored in a
Candidate at construction; `scale` is the configured scaling function;
`next_f64` is the stream of uniform [0,1) draws of thread_rng. -/
structure SolutionOps (S : Type) where
  evaluate_fitness : S → ℚ
  make : Nat → S
  explore : List (Candidate S) → Nat → S
  scale : List ℚ → List ℚ
  next_f64 : Nat → ℚ

/-- Modelled from the spec: Candidate::new wraps a solution and derives its
fitness once at construction time. -/
def Candidate.new {S : Type} (ops : SolutionOps S) (sol : S) : Candidate S :=
  { solution := sol, fitness := ops.evaluate_fitness sol }

/-- The state of a Swarm (src/hive.rs, struct Swarm), embedded sequentially:
each lock-protected field is a plain field, `retries` is the hive's
configured retry budget, `streaming` says whether a streaming sender is
installed. The remaining fields model the engine's environment:
`receiver_connected` is whether the far end of the streaming channel is
still alive, `sent` the list of candidates successfully published,
`builder_state` the cursor into the builder's solution stream, `rng_state`
the cursor into the random stream, and `choose_calls` counts invocations of
Swarm::choose. -/
structure Swarm (S : Type) where
  retries : Nat
  working : List (WorkingCandidate S)
  best : Candidate S
  tasks : Option TaskGenerator
  streaming : Bool
  receiver_connected : Bool
  sent : List (Candidate S)
  builder_state : Nat
  rng_state : Nat
  choose_calls : Nat
deriving DecidableEq

/-- Swarm::stop (src/hive.rs:294-297): sets the stop flag of the installed
generator, a no-op when none is installed; in the sequential embedding the
lock acquisition always succeeds, so the result is always ok. -/
def Swarm.stop {S : Type} (s : Swarm S) : Except Unit (Swarm S) :=
  Except.ok { s with tasks := s.tasks.map TaskGenerator.stop }

/-- Swarm::get_round (src/hive.rs:305-308). -/
def Swarm.get_round {S : Type} (s : Swarm S) : Except Unit (Option Nat) :=
  Except.ok (s.tasks.map (fun g => g.round))

/-- Swarm::current_working (src/hive.rs:140-147): a snapshot of the
population's candidates. -/
def Swarm.current_working {S : Type} (s : Swarm S) : List (Candidate S) :=
  s.working.map (fun w => w.candidate)

/-- Swarm::consider_improvement (src/hive.rs:160-174): if the candidate
strictly improves on the best slot, replace the best; when streaming, try
to publish, and if the receiver has been dropped issue a stop request
instead of an error. -/
def Swarm.consider_improvement {S : Type} (s : Swarm S) (candidate : Candidate S) :
    Except Unit (Swarm S) :=
  if candidate.fitness > s.best.fitness then
    let s1 := { s with best := candidate }
    if s1.streaming then
      if s1.receiver_connected then
        Except.ok { s1 with sent := s1.sent ++ [candidate] }
      else
        s1.stop
    else
      Except.ok s1
  else
    Except.ok s

/-- Swarm::work_on (src/hive.rs:176-194). The out-of-bounds index panic of
self.working[n] is modelled as an error. -/
def Swarm.work_on {S : Type} (s : Swarm S) (ops : SolutionOps S)
    (current_working : List (Candidate S)) (n : Nat) : Except Unit (Swarm S) :=
  let variant := Candidate.new ops (ops.explore current_working n)
  match s.working.get? n with
  | none => Except.error ()
  | some write_guard =>
    if variant.fitness > write_guard.candidate.fitness then
      let s1 := { s with working := s.working.set n (WorkingCandidate.new variant s.retries) }
      s1.consider_improvement variant
    else
      let depleted := write_guard.deplete
      if depleted.expired then
        let candidate := Candidate.new ops (ops.make s.builder_state)
        let s1 := { s with
          working := s.working.set n (WorkingCandidate.new candidate s.retries),
          builder_state := s.builder_state + 1 }
        s1.consider_improvement candidate
      else
        Except.ok { s with working := s.working.set n depleted }

/-- The cumulative-sum scan of src/hive.rs:201-206. -/
def scan_totals (acc : ℚ) : List ℚ → List ℚ
  | [] => []
  | x :: xs => (acc + x) :: scan_totals (acc + x) xs

/-- The scan loop of src/hive.rs:211-215: index of the first running total
strictly exceeding the choice point; none models the unreachable
fall-through. -/
def first_exceeding (choice_point : ℚ) : List ℚ → Option Nat
  | [] => none
  | t :: ts =>
    if choice_point < t then some 0
    else (first_exceeding choice_point ts).map (fun i => i + 1)

/-- Swarm::choose (src/hive.rs:196-217): fitness-proportionate selection.
none models the two panics (unwrap of an empty scan, and the unreachable
fall-through). -/
def Swarm.choose {S : Type} (s : Swarm S) (ops : SolutionOps S)
    (current_working : List (Candidate S)) : Option Nat :=
  let fitnesses := ops.scale (current_working.map (fun c => c.fitness))
  let running_totals := scan_totals 0 fitnesses
  match running_totals.getLast? with
  | none => none
  | some total_fitness =>
    let choice_point := ops.next_f64 s.rng_state * total_fitness
    first_exceeding choice_point running_totals

/-- Swarm::execute (src/hive.rs:219-226): a Worker token refines its own
slot, an Observer token a slot picked by choose (consuming one random draw
and counting the choose invocation). -/
def Swarm.execute {S : Type} (s : Swarm S) (ops : SolutionOps S) (task : Task) :
    Except Unit (Swarm S) :=
  let cw := s.current_working
  match task with
  | Task.Worker n => s.work_on ops cw n
  | Task.Observer _ =>
    match s.choose ops cw with
    | none => Except.error ()
    | some n =>
      let s1 := { s with rng_state := s.rng_state + 1,
                         choose_calls := s.choose_calls + 1 }
      s1.work_on ops cw n

/-- Swarm::pull_task: the scheduler-pull step of the worker loop
(src/hive.rs:240-242). -/
def Swarm.pull_task {S : Type} (s : Swarm S) : Option Task × Swarm S :=
  match s.tasks with
  | none => (none, s)
  | some g =>
    let p := g.next'
    (p.1, { s with tasks := some p.2 })

/-- The worker-thread loop of Swarm::run (src/hive.rs:238-249), run
sequentially with fuel; none means the loop had not finished within the
fuel, some carries the thread's result and the state it left behind. -/
def Swarm.run_loop {S : Type} (ops : SolutionOps S) :
    Nat → Swarm S → Option (Except Unit Unit × Swarm S)
  | 0, _ => none
  | fuel + 1, s =>
    let p := s.pull_task
    match p.1 with
    | none => some (Except.ok (), p.2)
    | some task =>
      match p.2.execute ops task with
      | Except.ok s2 => Swarm.run_loop ops fuel s2
      | Except.error e => some (Except.error e, p.2)

/-- Swarm::run (src/hive.rs:228-264): install the generator, drive the
worker loop, then clear the installed generator unconditionally — the Rust
code folds the thread results and then clears the task slot whether or not
a thread failed. -/
def Swarm.run {S : Type} (s : Swarm S) (ops : SolutionOps S)
    (tasks : TaskGenerator) (fuel : Nat) :
    Option (Except Unit Unit × Swarm S) :=
  match Swarm.run_loop ops fuel { s with tasks := some tasks } with
  | none => none
  | some p => some (p.1, { p.2 with tasks := none })

/-- One refinement-protocol invocation, as claim C3 quantifies over them:
either a work_on call or a direct consider_improvement call. -/
inductive Invocation (S : Type) where
  | work : List (Candidate S) → Nat → Invocation S
  | consider : Candidate S → Invocation S

/-- Run one invocation. -/
def Swarm.invoke {S : Type} (s : Swarm S) (ops : SolutionOps S) :
    Invocation S → Except Unit (Swarm S)
  | Invocation.work cw n => s.work_on ops cw n
  | Invocation.consider c => s.consider_improvement c

/-- Run a sequence of invocations, stopping at the first error. -/
def Swarm.invoke_all {S : Type} (s : Swarm S) (ops : SolutionOps S) :
    List (Invocation S) → Except Unit (Swarm S)
  | [] => Except.ok s
  | inv :: rest =>
    match s.invoke ops inv with
    | Except.ok s1 => s1.invoke_all ops rest
    | Except.error e => Except.error e

/-- Concrete demonstration ops on the unit solution type, used by the
witness theorems. -/
def demoOps : SolutionOps Unit :=
  { evaluate_fitness := fun _ => 0, make := fun _ => (),
    explore := fun _ _ => (), scale := fun l => l, next_f64 := fun _ => 0 }

/-- Concrete demonstration swarm used by the witness theorems. -/
def demoSwarm : Swarm Unit :=
  { retries := 1,
    working := [{ candidate := { solution := (), fitness := 0 }, retries_remaining := 1 }],
    best := { solution := (), fitness := 0 },
    tasks := none, streaming := false, receiver_connected := true,
    sent := [], builder_state := 0, rng_state := 0, choose_calls := 0 }

/-- Demonstration ops whose solutions always evaluate to fitness 1. -/
def demoOpsOne : SolutionOps Unit :=
  { demoOps with evaluate_fitness := fun _ => 1 }

/-- Demonstration ops drawing 1/2 from the random stream. -/
def demoOpsHalf : SolutionOps Unit :=
  { demoOps with next_f64 := fun _ => 1 / 2 }

/-- Demonstration population snapshot with fitness values 1 and 3. -/
def demoCW : List (Candidate Unit) :=
  [{ solution := (), fitness := 1 }, { solution := (), fitness := 3 }]

/-- Demonstration swarm that is streaming to a dropped receiver, with a
generator installed. -/
def demoStreamSwarm : Swarm Unit :=
  { demoSwarm with
    streaming := true, receiver_connected := false,
    tasks := some (roundsGenerator 1 1 5) }

/-- The state demoSwarm.work_on demoOpsOne [] 0 produces: the improving
variant is installed and becomes the best. -/
def demoC5After : Swarm Unit :=
  { demoSwarm with
    working := [WorkingCandidate.new { solution := (), fitness := 1 } 1],
    best := { solution := (), fitness := 1 } }

/-- An externally stopped generator, used to build a complete run for the
C10 witness. -/
def demoStoppedTasks : TaskGenerator :=
  (roundsGenerator 1 1 1).stop

theorem stepN_succ_front (g : TaskGenerator) (k : Nat) :
    g.stepN (k + 1) = g.next'.2.stepN k := by
  induction k generalizing g with
  | zero => rfl
  | succ k ih =>
    show (g.stepN (k + 1)).next'.2 = _
    rw [ih g]
    rfl

theorem output_succ (g : TaskGenerator) (i : Nat) :
    g.output (i + 1) = g.next'.2.output i := by
  unfold TaskGenerator.output
  rw [stepN_succ_front]

theorem stepN_add (g : TaskGenerator) (a b : Nat) :
    g.stepN (a + b) = (g.stepN a).stepN b := by
  induction b with
  | zero => rfl
  | succ b ih =>
    show (g.stepN (a + b)).next'.2 = _
    rw [ih]
    rfl

theorem output_add (g : TaskGenerator) (a i : Nat) :
    g.output (a + i) = (g.stepN a).output i := by
  unfold TaskGenerator.output
  rw [stepN_add]

theorem next'_stopped (g : TaskGenerator) (h : g.stopped = true) :
    g.next' = (none, g) := by
  unfold TaskGenerator.next'
  rw [h]
  rfl

theorem stepN_stopped (g : TaskGenerator) (h : g.stopped = true) (k : Nat) :
    g.stepN k = g := by
  induction k with
  | zero => rfl
  | succ k ih =>
    show (g.stepN k).next'.2 = g
    rw [ih, next'_stopped g h]

theorem output_stopped (g : TaskGenerator) (h : g.stopped = true) (i : Nat) :
    g.output i = none := by
  unfold TaskGenerator.output
  rw [stepN_stopped g h, next'_stopped g h]

theorem zeroObs_state (w r : Nat) (hw : 1 ≤ w) (i : Nat) :
    (roundsGenerator w 0 r).stepN i = midGen w 0 r 0 (Task.Worker (i % w)) false := by
  induction i with
  | zero =>
    simp [roundsGenerator, TaskGenerator.new, TaskGenerator.max_rounds', midGen,
      TaskGenerator.stepN, Nat.zero_mod]
  | succ i ih =>
    show ((roundsGenerator w 0 r).stepN i).next'.2 = _
    rw [ih]
    have hlt : i % w < w := Nat.mod_lt i hw
    have hsucc : (i + 1) % w = (i % w + 1) % w := (Nat.mod_add_mod i w 1).symm
    by_cases hb : i % w = w - 1
    · have h1 : (i + 1) % w = 0 := by
        rw [hsucc, hb]
        have : w - 1 + 1 = w := Nat.succ_pred_eq_of_pos hw
        rw [this, Nat.mod_self]
      simp only [TaskGenerator.next', midGen]
      simp [hb, h1]
    · have h1 : (i + 1) % w = i % w + 1 := by
        rw [hsucc]
        exact Nat.mod_eq_of_lt (by omega)
      simp only [TaskGenerator.next', midGen]
      simp [hb, h1]

theorem workerPhase (w o r : Nat) (ho : 1 ≤ o) :
    ∀ k j ρ, 1 ≤ k → j + k = w →
      (midGen w o r ρ (Task.Worker j) false).stepN k
          = midGen w o r ρ (Task.Observer 0) false
      ∧ ∀ t, t < k →
          (midGen w o r ρ (Task.Worker j) false).output t
            = some (Task.Worker (j + t)) := by
  intro k
  induction k with
  | zero => intro j ρ hk; omega
  | succ k ih =>
    intro j ρ _ hjw
    by_cases hk0 : k = 0
    · subst hk0
      have hj : j = w - 1 := by omega
      constructor
      · show (midGen w o r ρ (Task.Worker j) false).next'.2 = _
        simp only [TaskGenerator.next', midGen]
        simp [hj, Nat.lt_of_lt_of_le Nat.zero_lt_one ho]
      · intro t ht
        have ht0 : t = 0 := by omega
        subst ht0
        simp only [TaskGenerator.output, TaskGenerator.stepN, TaskGenerator.next', midGen]
        simp
    · have hk1 : 1 ≤ k := by omega
      have hstep : (midGen w o r ρ (Task.Worker j) false).next'.2
          = midGen w o r ρ (Task.Worker (j + 1)) false := by
        have hne : ¬ j = w - 1 := by omega
        simp only [TaskGenerator.next', midGen]
        simp [hne]
      have ih' := ih (j + 1) ρ hk1 (by omega)
      constructor
      · rw [stepN_succ_front, hstep]
        exact ih'.1
      · intro t ht
        match t with
        | 0 =>
          simp only [TaskGenerator.output, TaskGenerator.stepN, TaskGenerator.next', midGen]
          simp
        | t + 1 =>
          rw [output_succ, hstep]
          have := ih'.2 t (by omega)
          rw [this]
          congr 2
          omega

theorem observerPhase (w o r : Nat) :
    ∀ k j ρ, 1 ≤ k → j + k = o →
      (midGen w o r ρ (Task.Observer j) false).stepN k
          = midGen w o r (ρ + 1) (Task.Worker 0) (decide (r ≤ ρ + 1))
      ∧ ∀ t, t < k →
          (midGen w o r ρ (Task.Observer j) false).output t
            = some (Task.Observer (j + t)) := by
  intro k
  induction k with
  | zero => intro j ρ hk; omega
  | succ k ih =>
    intro j ρ _ hjo
    by_cases hk0 : k = 0
    · subst hk0
      have hj : j = o - 1 := by omega
      constructor
      · show (midGen w o r ρ (Task.Observer j) false).next'.2 = _
        simp only [TaskGenerator.next', midGen]
        simp [hj]
      · intro t ht
        have ht0 : t = 0 := by omega
        subst ht0
        simp only [TaskGenerator.output, TaskGenerator.stepN, TaskGenerator.next', midGen]
        simp
    · have hk1 : 1 ≤ k := by omega
      have hstep : (midGen w o r ρ (Task.Observer j) false).next'.2
          = midGen w o r ρ (Task.Observer (j + 1)) false := by
        have hne : ¬ j = o - 1 := by omega
        simp only [TaskGenerator.next', midGen]
        simp [hne]
      have ih' := ih (j + 1) ρ hk1 (by omega)
      constructor
      · rw [stepN_succ_front, hstep]
        exact ih'.1
      · intro t ht
        match t with
        | 0 =>
          simp only [TaskGenerator.output, TaskGenerator.stepN, TaskGenerator.next', midGen]
          simp
        | t + 1 =>
          rw [output_succ, hstep]
          have := ih'.2 t (by omega)
          rw [this]
          congr 2
          omega

theorem cyclePhase (w o r : Nat) (hw : 1 ≤ w) (ho : 1 ≤ o) (ρ : Nat) :
    (midGen w o r ρ (Task.Worker 0) false).stepN (w + o)
        = midGen w o r (ρ + 1) (Task.Worker 0) (decide (r ≤ ρ + 1))
    ∧ ∀ t, t < w + o →
        (midGen w o r ρ (Task.Worker 0) false).output t = some (cycleTask w t) := by
  have hW := workerPhase w o r ho w 0 ρ hw (by omega)
  have hO := observerPhase w o r o 0 (ρ) ho (by omega)
  constructor
  · rw [stepN_add, hW.1]
    exact hO.1
  · intro t ht
    by_cases htw : t < w
    · rw [hW.2 t htw]
      simp [cycleTask, htw]
    · have hdecomp : t = w + (t - w) := by omega
      rw [hdecomp, output_add, hW.1, hO.2 (t - w) (by omega)]
      simp [cycleTask, htw]

theorem roundsState (w o r : Nat) (hw : 1 ≤ w) (ho : 1 ≤ o) (hr : 1 ≤ r) :
    ∀ ρ, ρ ≤ r →
      (roundsGenerator w o r).stepN (ρ * (w + o))
        = midGen w o r ρ (Task.Worker 0) (decide (r ≤ ρ)) := by
  intro ρ
  induction ρ with
  | zero =>
    intro _
    have hd : decide (r ≤ 0) = false := by
      rw [decide_eq_false_iff_not]
      omega
    rw [Nat.zero_mul, hd]
    rfl
  | succ ρ ih =>
    intro hρr
    have hρ : ρ ≤ r := by omega
    have hfalse : decide (r ≤ ρ) = false := by
      rw [decide_eq_false_iff_not]
      omega
    have hmul : (ρ + 1) * (w + o) = ρ * (w + o) + (w + o) := by ring
    rw [hmul, stepN_add, ih hρ, hfalse]
    exact (cyclePhase w o r hw ho ρ).1

/-- C1: for W ≥ 1, O ≥ 1 and round limit R ≥ 1, Swarm::run_for_rounds's
generator emits exactly R * (W + O) tokens, in the repeating cycle
Worker(0), ..., Worker(W-1), Observer(0), ..., Observer(O-1), and from
position R * (W + O) onward every call returns None. (The original claim
also covered O = 0 and R = 0; both fail on the code, see the
counterexample.) -/
theorem C1_scheduler_cycle (w o r : Nat) (hw : 1 ≤ w) (ho : 1 ≤ o) (hr : 1 ≤ r)
    (i : Nat) :
    (roundsGenerator w o r).output i
      = if i < r * (w + o) then some (cycleTask w (i % (w + o))) else none := by
  have hL : 0 < w + o := by omega
  by_cases hi : i < r * (w + o)
  · have hmod : i % (w + o) < w + o := Nat.mod_lt i hL
    have hdiv : i / (w + o) < r := (Nat.div_lt_iff_lt_mul hL).mpr hi
    have hi_eq : i = (i / (w + o)) * (w + o) + i % (w + o) :=
      (Nat.div_add_mod' i (w + o)).symm
    have hfalse : decide (r ≤ i / (w + o)) = false := by
      rw [decide_eq_false_iff_not]
      omega
    have hout : (roundsGenerator w o r).output i
        = some (cycleTask w (i % (w + o))) := by
      conv_lhs => rw [hi_eq]
      rw [output_add, roundsState w o r hw ho hr (i / (w + o)) (by omega), hfalse]
      exact (cyclePhase w o r hw ho (i / (w + o))).2 (i % (w + o)) hmod
    rw [hout, if_pos hi]
  · have hstate := roundsState w o r hw ho hr r (le_refl r)
    have htrue : decide (r ≤ r) = true := by simp
    rw [htrue] at hstate
    have hi_eq : i = r * (w + o) + (i - r * (w + o)) := by omega
    have hout : (roundsGenerator w o r).output i = none := by
      conv_lhs => rw [hi_eq]
      rw [output_add, hstate]
      exact output_stopped _ rfl _
    rw [hout, if_neg hi]

/-- C1 counterexample: as stated the claim quantifies over all O ≥ 0 and all
round limits R. With W = 1, O = 0, R = 1 the generator should be exhausted
after 1 token but still emits at position 1; with W = 1, O = 1, R = 0 it
should emit 0 tokens but emits one at position 0. -/
theorem C1_counterexample :
    (roundsGenerator 1 0 1).output 1 ≠ none
    ∧ (roundsGenerator 1 1 0).output 0 ≠ none := by decide

/-- C1 witness: at W = 3, O = 2, R = 2 the 8th token (index 7) is Worker 2,
as the cycle predicts. -/
theorem C1_witness :
    (roundsGenerator 3 2 2).output 7 = some (Task.Worker 2) := by
  have h := C1_scheduler_cycle 3 2 2 (by decide) (by decide) (by decide) 7
  simpa using h

theorem round_le_next' (g : TaskGenerator) : g.round ≤ g.next'.2.round := by
  unfold TaskGenerator.next'
  split
  · exact Nat.le_refl _
  · cases hn : g.next with
    | Worker n =>
      simp only [hn]
      split
      · split
        · exact Nat.le_refl _
        · exact Nat.le_refl _
      · exact Nat.le_refl _
    | Observer n =>
      simp only [hn]
      split
      · exact Nat.le_of_lt (Nat.lt_succ_self _)
      · exact Nat.le_refl _

theorem round_mono (g : TaskGenerator) (i j : Nat) (h : i ≤ j) :
    (g.stepN i).round ≤ (g.stepN j).round := by
  induction j with
  | zero =>
    have h0 : i = 0 := Nat.le_zero.mp h
    subst h0
    exact Nat.le_refl _
  | succ j ih =>
    by_cases he : i = j + 1
    · subst he
      exact Nat.le_refl _
    · have hij : i ≤ j := by omega
      exact Nat.le_trans (ih hij) (round_le_next' (g.stepN j))

/-- C6: the round counter increments exactly when the generator, not being
stopped, emits the last Observer token of a phase (then transitioning back
to Worker 0); at every other step it is unchanged; and the round counter
read back by get_round never decreases as the generator advances. The
hypothesis restricts to states whose Observer cursor is in range, the only
states the Rust code can reach (with zero observers the Observer arm is
never entered). -/
theorem next'_round_eq (g : TaskGenerator) :
    g.next'.2.round =
      if g.stopped = false ∧ g.next = Task.Observer (g.observers - 1)
      then g.round + 1 else g.round := by
  by_cases hs : g.stopped = true
  · have hnc : ¬(g.stopped = false ∧ g.next = Task.Observer (g.observers - 1)) := by
      rintro ⟨h1, -⟩
      rw [h1] at hs
      cases hs
    rw [next'_stopped g hs, if_neg hnc]
  · have hs' : g.stopped = false := by
      revert hs
      cases g.stopped <;> simp
    cases hn : g.next with
    | Worker n =>
      rw [if_neg]
      · simp [TaskGenerator.next', hs', hn, apply_ite TaskGenerator.round]
      · rintro ⟨-, h2⟩
        cases h2
    | Observer n =>
      by_cases hb : n = g.observers - 1
      · rw [if_pos ⟨hs', by rw [hb]⟩]
        simp [TaskGenerator.next', hs', hn, hb]
      · rw [if_neg]
        · simp [TaskGenerator.next', hs', hn, hb]
        · rintro ⟨-, h2⟩
          exact hb (Task.Observer.inj h2)

/-- C6: the round counter increments exactly when the generator, not being
stopped, emits the last Observer token of a phase (then transitioning back
to Worker 0); at every other step it is unchanged; and the round counter
read back by get_round never decreases as the generator advances. The
hypothesis restricts to states whose Observer cursor is in range, the only
states the Rust code can reach (with zero observers the Observer arm is
never entered). -/
theorem C6_round_counter (g : TaskGenerator)
    (hobs : ∀ n, g.next = Task.Observer n → n < g.observers) :
    (g.next'.2.round = g.round + 1 ↔
      (g.stopped = false ∧ g.next = Task.Observer (g.observers - 1)))
    ∧ (g.next'.2.round = g.round ∨ g.next'.2.round = g.round + 1)
    ∧ (g.stopped = false → g.next = Task.Observer (g.observers - 1) →
        g.next'.2.next = Task.Worker 0)
    ∧ ∀ i j, i ≤ j → (g.stepN i).round ≤ (g.stepN j).round := by
  refine ⟨?_, ?_, ?_, fun i j h => round_mono g i j h⟩
  · rw [next'_round_eq]
    by_cases hc : g.stopped = false ∧ g.next = Task.Observer (g.observers - 1)
    · rw [if_pos hc]
      exact ⟨fun _ => hc, fun _ => rfl⟩
    · rw [if_neg hc]
      constructor
      · intro h
        omega
      · intro h
        exact absurd h hc
  · rw [next'_round_eq]
    split
    · right
      rfl
    · left
      rfl
  · intro hs hlast
    simp [TaskGenerator.next', hs, hlast]

theorem consider_improvement_eq {S : Type} (s : Swarm S) (c : Candidate S) :
    s.consider_improvement c =
      Except.ok
        (if c.fitness > s.best.fitness then
          if s.streaming then
            if s.receiver_connected then
              { s with best := c, sent := s.sent ++ [c] }
            else
              { s with best := c, tasks := s.tasks.map TaskGenerator.stop }
          else { s with best := c }
        else s) := by
  obtain ⟨ret, wk, bst, tks, str, rc, snt, bld, rng, chc⟩ := s
  simp only [Swarm.consider_improvement, Swarm.stop]
  split_ifs <;> rfl

theorem consider_best_fitness {S : Type} (s s' : Swarm S) (c : Candidate S)
    (h : s.consider_improvement c = Except.ok s') :
    s'.best.fitness = max s.best.fitness c.fitness := by
  rw [consider_improvement_eq] at h
  have he := Except.ok.inj h
  subst he
  split_ifs with h1 h2 h3
  · exact (max_eq_right (le_of_lt h1)).symm
  · exact (max_eq_right (le_of_lt h1)).symm
  · exact (max_eq_right (le_of_lt h1)).symm
  · exact (max_eq_left (le_of_not_lt h1)).symm

theorem consider_best_cases {S : Type} (s s' : Swarm S) (c : Candidate S)
    (h : s.consider_improvement c = Except.ok s') :
    s'.best = s.best ∨ (s'.best = c ∧ s.best.fitness < c.fitness) := by
  rw [consider_improvement_eq] at h
  have he := Except.ok.inj h
  subst he
  split_ifs with h1 h2 h3
  · exact Or.inr ⟨rfl, h1⟩
  · exact Or.inr ⟨rfl, h1⟩
  · exact Or.inr ⟨rfl, h1⟩
  · exact Or.inl rfl

theorem consider_working {S : Type} (s s' : Swarm S) (c : Candidate S)
    (h : s.consider_improvement c = Except.ok s') :
    s'.working = s.working := by
  rw [consider_improvement_eq] at h
  have he := Except.ok.inj h
  subst he
  split_ifs <;> rfl

theorem consider_choose_calls {S : Type} (s s' : Swarm S) (c : Candidate S)
    (h : s.consider_improvement c = Except.ok s') :
    s'.choose_calls = s.choose_calls := by
  rw [consider_improvement_eq] at h
  have he := Except.ok.inj h
  subst he
  split_ifs <;> rfl

theorem work_on_best_fitness {S : Type} (s s' : Swarm S) (ops : SolutionOps S)
    (cw : List (Candidate S)) (n : Nat)
    (h : s.work_on ops cw n = Except.ok s') :
    s.best.fitness ≤ s'.best.fitness
    ∧ (s'.best ≠ s.best → s.best.fitness < s'.best.fitness) := by
  unfold Swarm.work_on at h
  cases hg : s.working.get? n with
  | none => rw [hg] at h; cases h
  | some wg =>
    rw [hg] at h
    dsimp at h
    split_ifs at h with h1 h2
    · have hb := consider_best_fitness _ _ _ h
      have hc := consider_best_cases _ _ _ h
      constructor
      · rw [hb]; exact le_max_left _ _
      · intro hne
        rcases hc with hsame | ⟨hcb, hlt⟩
        · exact absurd hsame hne
        · rw [hcb]; exact hlt
    · have hb := consider_best_fitness _ _ _ h
      have hc := consider_best_cases _ _ _ h
      constructor
      · rw [hb]; exact le_max_left _ _
      · intro hne
        rcases hc with hsame | ⟨hcb, hlt⟩
        · exact absurd hsame hne
        · rw [hcb]; exact hlt
    · have he := Except.ok.inj h
      subst he
      exact ⟨le_refl _, fun hne => absurd rfl hne⟩

theorem invoke_best_fitness {S : Type} (s s' : Swarm S) (ops : SolutionOps S)
    (inv : Invocation S) (h : s.invoke ops inv = Except.ok s') :
    s.best.fitness ≤ s'.best.fitness
    ∧ (s'.best ≠ s.best → s.best.fitness < s'.best.fitness) := by
  cases inv with
  | work cw n => exact work_on_best_fitness s s' ops cw n h
  | consider c =>
    have hb := consider_best_fitness _ _ _ h
    have hc := consider_best_cases _ _ _ h
    constructor
    · rw [hb]; exact le_max_left _ _
    · intro hne
      rcases hc with hsame | ⟨hcb, hlt⟩
      · exact absurd hsame hne
      · rw [hcb]; exact hlt

/-- C3: the best slot's fitness is monotonically non-decreasing across any
sequence of refinement-protocol invocations (work_on or
consider_improvement, any population size, any retry budget), and within
one invocation the best slot is replaced only by a candidate of strictly
greater fitness. -/
theorem C3_best_monotone {S : Type} (ops : SolutionOps S)
    (l : List (Invocation S)) (s s' : Swarm S)
    (h : s.invoke_all ops l = Except.ok s') :
    s.best.fitness ≤ s'.best.fitness
    ∧ ∀ (inv : Invocation S) (t t' : Swarm S),
        t.invoke ops inv = Except.ok t' → t'.best ≠ t.best →
          t.best.fitness < t'.best.fitness := by
  refine ⟨?_, fun inv t t' ht hne => (invoke_best_fitness t t' ops inv ht).2 hne⟩
  induction l generalizing s with
  | nil =>
    unfold Swarm.invoke_all at h
    have he := Except.ok.inj h
    subst he
    exact le_refl _
  | cons inv rest ih =>
    unfold Swarm.invoke_all at h
    cases hi : s.invoke ops inv with
    | error e => rw [hi] at h; cases h
    | ok s1 =>
      rw [hi] at h
      exact le_trans (invoke_best_fitness s s1 ops inv hi).1 (ih s1 h)

/-- C3 witness: a concrete improving consider_improvement invocation raises
the best fitness from 0 to 5, and the monotonicity theorem applies to it. -/
theorem C3_witness :
    demoSwarm.best.fitness ≤
      ({ demoSwarm with best := { solution := (), fitness := 5 } } : Swarm Unit).best.fitness :=
  (C3_best_monotone demoOps
    [Invocation.consider { solution := (), fitness := 5 }]
    demoSwarm { demoSwarm with best := { solution := (), fitness := 5 } }
    (by rfl)).1

theorem deplete_expired_iff {S : Type} (wg : WorkingCandidate S) :
    wg.deplete.expired = true ↔ wg.retries_remaining ≤ 1 := by
  simp only [WorkingCandidate.deplete, WorkingCandidate.expired, beq_iff_eq]
  omega

theorem get?_some_lt_length {S : Type} (l : List (WorkingCandidate S)) (n : Nat)
    (wg : WorkingCandidate S) (hg : l.get? n = some wg) : n < l.length := by
  by_contra hge
  rw [List.get?_eq_none.mpr (by omega)] at hg
  cases hg

/-- C4: the retry counter of a working slot resets to the configured budget
whenever the slot's candidate is replaced (strict improvement, or
expiration-triggered reinitialization — reached exactly when the counter
before the call was at most 1, including the at-zero case, which replaces
instead of underflowing), and on any other rejected refinement it moves
from its previous value to exactly one less; the counter is a Nat and can
never be negative. -/
theorem C4_retry_counter {S : Type} (s s' : Swarm S) (ops : SolutionOps S)
    (cw : List (Candidate S)) (n : Nat) (wg : WorkingCandidate S)
    (hg : s.working.get? n = some wg)
    (h : s.work_on ops cw n = Except.ok s') :
    ((Candidate.new ops (ops.explore cw n)).fitness > wg.candidate.fitness →
        s'.working.get? n
          = some (WorkingCandidate.new (Candidate.new ops (ops.explore cw n)) s.retries))
    ∧ (¬ (Candidate.new ops (ops.explore cw n)).fitness > wg.candidate.fitness →
        wg.retries_remaining ≤ 1 →
        s'.working.get? n
          = some (WorkingCandidate.new (Candidate.new ops (ops.make s.builder_state)) s.retries))
    ∧ (¬ (Candidate.new ops (ops.explore cw n)).fitness > wg.candidate.fitness →
        2 ≤ wg.retries_remaining →
        s'.working.get? n
          = some { candidate := wg.candidate,
                   retries_remaining := wg.retries_remaining - 1 }) := by
  have hlt : n < s.working.length := get?_some_lt_length _ _ _ hg
  unfold Swarm.work_on at h
  rw [hg] at h
  dsimp at h
  refine ⟨?_, ?_, ?_⟩
  · intro h1
    rw [if_pos h1] at h
    have hw := consider_working _ _ _ h
    rw [hw]
    exact List.get?_set_eq_of_lt _ hlt
  · intro h1 h2
    rw [if_neg h1, if_pos (deplete_expired_iff wg |>.mpr h2)] at h
    have hw := consider_working _ _ _ h
    rw [hw]
    exact List.get?_set_eq_of_lt _ hlt
  · intro h1 h2
    have hne : ¬ wg.deplete.expired = true := by
      rw [deplete_expired_iff]
      omega
    rw [if_neg h1, if_neg hne] at h
    have he := Except.ok.inj h
    subst he
    exact List.get?_set_eq_of_lt _ hlt

/-- C4 witness: on the demonstration swarm (retry budget 1, slot counter 1)
a rejected refinement expires the slot and installs a fresh builder
candidate with the counter reset to the budget. -/
theorem C4_witness :
    ({ demoSwarm with builder_state := 1 } : Swarm Unit).working.get? 0
      = some (WorkingCandidate.new
          (Candidate.new demoOps (demoOps.make demoSwarm.builder_state))
          demoSwarm.retries) :=
  (C4_retry_counter demoSwarm { demoSwarm with builder_state := 1 } demoOps [] 0
      { candidate := { solution := (), fitness := 0 }, retries_remaining := 1 }
      (by rfl) (by rfl)).2.1 (by decide) (by decide)

/-- C5: one work_on invocation on slot n behaves by cases on the explored
variant: a strict improvement replaces the slot (budget reset) and attempts
a best update (afterwards the best fitness is the max of old best and the
variant); otherwise — ties included — the budget is depleted, and only if
it thereby expires is a brand-new builder candidate installed regardless of
its fitness (budget reset, best update attempted); a rejected refinement
without expiration changes nothing but the slot's counter. -/
theorem C5_work_on_protocol {S : Type} (s s' : Swarm S) (ops : SolutionOps S)
    (cw : List (Candidate S)) (n : Nat) (wg : WorkingCandidate S)
    (hg : s.working.get? n = some wg)
    (h : s.work_on ops cw n = Except.ok s') :
    (wg.candidate.fitness < (Candidate.new ops (ops.explore cw n)).fitness →
        s'.working.get? n
          = some (WorkingCandidate.new (Candidate.new ops (ops.explore cw n)) s.retries)
        ∧ s'.best.fitness
          = max s.best.fitness (Candidate.new ops (ops.explore cw n)).fitness)
    ∧ ((Candidate.new ops (ops.explore cw n)).fitness ≤ wg.candidate.fitness →
        ¬ wg.deplete.expired = true →
        s' = { s with working := s.working.set n wg.deplete })
    ∧ ((Candidate.new ops (ops.explore cw n)).fitness ≤ wg.candidate.fitness →
        wg.deplete.expired = true →
        s'.working.get? n
          = some (WorkingCandidate.new (Candidate.new ops (ops.make s.builder_state)) s.retries)
        ∧ s'.best.fitness
          = max s.best.fitness (Candidate.new ops (ops.make s.builder_state)).fitness) := by
  have hlt : n < s.working.length := get?_some_lt_length _ _ _ hg
  unfold Swarm.work_on at h
  rw [hg] at h
  dsimp at h
  refine ⟨?_, ?_, ?_⟩
  · intro h1
    rw [if_pos h1] at h
    refine ⟨?_, ?_⟩
    · rw [consider_working _ _ _ h]
      exact List.get?_set_eq_of_lt _ hlt
    · rw [consider_best_fitness _ _ _ h]
  · intro h1 h2
    rw [if_neg (not_lt.mpr h1), if_neg h2] at h
    exact (Except.ok.inj h).symm
  · intro h1 h2
    rw [if_neg (not_lt.mpr h1), if_pos h2] at h
    refine ⟨?_, ?_⟩
    · rw [consider_working _ _ _ h]
      exact List.get?_set_eq_of_lt _ hlt
    · rw [consider_best_fitness _ _ _ h]

/-- C5 witness: a strictly improving variant (fitness 1 over 0) is
installed with the budget reset and the best slot is updated to the max. -/
theorem C5_witness :
    (demoC5After.working.get? 0
      = some (WorkingCandidate.new (Candidate.new demoOpsOne (demoOpsOne.explore [] 0))
          demoSwarm.retries))
    ∧ demoC5After.best.fitness
      = max demoSwarm.best.fitness (Candidate.new demoOpsOne (demoOpsOne.explore [] 0)).fitness :=
  (C5_work_on_protocol demoSwarm demoC5After demoOpsOne [] 0
      { candidate := { solution := (), fitness := 0 }, retries_remaining := 1 }
      (by rfl) (by rfl)).1 (by decide)

/-- C8 frame property: a work_on invocation targeting slot n leaves the
population length and every slot other than n untouched. -/
theorem C8_frame {S : Type} (s s' : Swarm S) (ops : SolutionOps S)
    (cw : List (Candidate S)) (n : Nat)
    (h : s.work_on ops cw n = Except.ok s') :
    s'.working.length = s.working.length
    ∧ ∀ m, m ≠ n → s'.working.get? m = s.working.get? m := by
  unfold Swarm.work_on at h
  cases hg : s.working.get? n with
  | none => rw [hg] at h; cases h
  | some wg =>
    rw [hg] at h
    dsimp at h
    split_ifs at h with h1 h2
    · rw [consider_working _ _ _ h]
      exact ⟨by simp, fun m hm => List.get?_set_ne _ _ (Ne.symm hm)⟩
    · rw [consider_working _ _ _ h]
      exact ⟨by simp, fun m hm => List.get?_set_ne _ _ (Ne.symm hm)⟩
    · have he := Except.ok.inj h
      subst he
      exact ⟨by simp, fun m hm => List.get?_set_ne _ _ (Ne.symm hm)⟩

/-- C8 witness: the demonstration work_on call on slot 0 leaves slot 1
(out of range here, so the none at index 1) unchanged. -/
theorem C8_witness :
    ({ demoSwarm with builder_state := 1 } : Swarm Unit).working.get? 1
      = demoSwarm.working.get? 1 :=
  (C8_frame demoSwarm { demoSwarm with builder_state := 1 } demoOps [] 0
      (by rfl)).2 1 (by decide)

/-- C9: with a streaming sink attached whose receiver has gone away, a
strict improvement still returns ok: the best slot is updated, nothing is
surfaced as an error, and a stop request is issued on the installed
scheduler (the stop flag of the installed generator is set). -/
theorem C9_disconnected_sink {S : Type} (s : Swarm S) (c : Candidate S)
    (hstr : s.streaming = true) (hrc : s.receiver_connected = false)
    (himp : s.best.fitness < c.fitness) :
    s.consider_improvement c =
      Except.ok { s with best := c, tasks := s.tasks.map TaskGenerator.stop } := by
  rw [consider_improvement_eq, if_pos himp, if_pos hstr, if_neg (by rw [hrc]; exact Bool.false_ne_true)]

/-- C9 witness: the demonstration streaming swarm with a dropped receiver
accepts the improvement, stops the installed generator and reports ok. -/
theorem C9_witness :
    Swarm.consider_improvement demoStreamSwarm { solution := (), fitness := 5 } =
      Except.ok { demoStreamSwarm with
        best := { solution := (), fitness := 5 },
        tasks := some ((roundsGenerator 1 1 5).stop) } := by
  have h := C9_disconnected_sink demoStreamSwarm { solution := (), fitness := 5 }
    (by rfl) (by rfl) (by decide)
  exact h

theorem work_on_choose_calls {S : Type} (s s' : Swarm S) (ops : SolutionOps S)
    (cw : List (Candidate S)) (n : Nat)
    (h : s.work_on ops cw n = Except.ok s') :
    s'.choose_calls = s.choose_calls := by
  unfold Swarm.work_on at h
  cases hg : s.working.get? n with
  | none => rw [hg] at h; cases h
  | some wg =>
    rw [hg] at h
    dsimp at h
    split_ifs at h with h1 h2
    · rw [consider_choose_calls _ _ _ h]
    · rw [consider_choose_calls _ _ _ h]
    · have he := Except.ok.inj h
      subst he
      rfl

/-- C2 counterexample: with W = 2, O = 0 and round limit 1, the scheduler
emits both worker tokens of the first sweep, yet the round counter is still
0 after the sweep and a token is still emitted at position 2 = R * W — the
round counter does not advance at worker sweeps and the run does not
terminate after R sweeps. -/
theorem C2_counterexample :
    ((roundsGenerator 2 0 1).stepN 2).round = 0
    ∧ (roundsGenerator 2 0 1).output 2 ≠ none := by decide

/-- C2 amended: with observers = 0 every emitted token is a Worker token
(so executing a token never reaches the Observer arm, the only caller of
choose — executing any Worker token leaves the choose-invocation count
unchanged), and the round counter stays at 0 forever: the generator makes
no round-boundary progress and never exhausts via the round limit. -/
theorem C2_zero_observers (w r : Nat) (hw : 1 ≤ w) (i : Nat) :
    (roundsGenerator w 0 r).output i = some (Task.Worker (i % w))
    ∧ ((roundsGenerator w 0 r).stepN i).round = 0
    ∧ ∀ (S : Type) (ops : SolutionOps S) (s s' : Swarm S) (n : Nat),
        s.execute ops (Task.Worker n) = Except.ok s' →
          s'.choose_calls = s.choose_calls := by
  refine ⟨?_, ?_, ?_⟩
  · unfold TaskGenerator.output
    rw [zeroObs_state w r hw i]
    simp [TaskGenerator.next', midGen]
  · rw [zeroObs_state w r hw i]
    rfl
  · intro S ops s s' n h
    unfold Swarm.execute at h
    dsimp at h
    exact work_on_choose_calls _ _ _ _ _ h

/-- C2 witness: with W = 2, O = 0, R = 1 the token at position 3 is
Worker 1 (position 3 mod 2), far beyond the supposed exhaustion point. -/
theorem C2_witness :
    (roundsGenerator 2 0 1).output 3 = some (Task.Worker 1) := by
  have h := (C2_zero_observers 2 1 (by decide) 3).1
  simpa using h

/-- C6 witness: along the W = 2, O = 2, R = 3 run the round counter between
steps 1 and 2 does not decrease. -/
theorem C6_witness :
    ((roundsGenerator 2 2 3).stepN 1).round ≤ ((roundsGenerator 2 2 3).stepN 2).round :=
  (C6_round_counter (roundsGenerator 2 2 3)
      (fun n h => by
        simp [roundsGenerator, TaskGenerator.new, TaskGenerator.max_rounds'] at h)).2.2.2
    1 2 (by decide)

theorem scan_totals_getLast? (l : List ℚ) :
    ∀ a, l ≠ [] → (scan_totals a l).getLast? = some (a + l.sum) := by
  induction l with
  | nil => intro a h; cases h rfl
  | cons x xs ih =>
    intro a _
    cases xs with
    | nil =>
      simp [scan_totals]
    | cons y ys =>
      have h2 : scan_totals a (x :: y :: ys)
          = (a + x) :: (a + x + y) :: scan_totals (a + x + y) ys := rfl
      rw [h2, List.getLast?_cons_cons]
      have h3 := ih (a + x) (List.cons_ne_nil y ys)
      rw [show ((a + x + y) :: scan_totals (a + x + y) ys)
          = scan_totals (a + x) (y :: ys) from rfl, h3]
      congr 1
      simp [List.sum_cons]
      ring

theorem first_exceeding_sound (cp : ℚ) :
    ∀ (l : List ℚ) (i : Nat), first_exceeding cp l = some i →
      ∃ t, l.get? i = some t ∧ cp < t
        ∧ ∀ j u, j < i → l.get? j = some u → u ≤ cp := by
  intro l
  induction l with
  | nil => intro i h; cases h
  | cons x xs ih =>
    intro i h
    unfold first_exceeding at h
    split_ifs at h with hx
    · have h0 := Option.some.inj h
      subst h0
      exact ⟨x, rfl, hx, fun j u hj _ => absurd hj (Nat.not_lt_zero j)⟩
    · cases hfe : first_exceeding cp xs with
      | none => rw [hfe] at h; cases h
      | some i' =>
        rw [hfe] at h
        have h1 : i' + 1 = i := Option.some.inj h
        subst h1
        obtain ⟨t, ht, hcp, hprev⟩ := ih i' hfe
        refine ⟨t, ht, hcp, ?_⟩
        intro j u hj hu
        match j with
        | 0 =>
          have hux : x = u := Option.some.inj hu
          subst hux
          exact le_of_not_lt hx
        | j + 1 =>
          exact hprev j u (by omega) hu

theorem first_exceeding_ne_none (cp : ℚ) :
    ∀ (l : List ℚ), (∃ x ∈ l, cp < x) → first_exceeding cp l ≠ none := by
  intro l
  induction l with
  | nil =>
    rintro ⟨x, hx, -⟩
    cases hx
  | cons y ys ih =>
    rintro ⟨x, hx, hcp⟩
    unfold first_exceeding
    split_ifs with hy
    · exact Option.some_ne_none 0
    · rcases List.mem_cons.mp hx with h1 | h1
      · subst h1
        exact absurd hcp hy
      · cases hfe : first_exceeding cp ys with
        | none => exact absurd hfe (ih ⟨x, h1, hcp⟩)
        | some i => simp

/-- C7: when the scaled weights of the snapshot are all non-negative and
their total is strictly positive (and the RNG draw is a genuine [0,1)
value), choose never reaches the unreachable fall-through after the scan
loop, and any index it returns is the first entry of the cumulative-sum
table strictly exceeding the draw choice point. -/
theorem C7_selection {S : Type} (s : Swarm S) (ops : SolutionOps S)
    (cw : List (Candidate S))
    (hnn : ∀ x ∈ ops.scale (cw.map fun c => c.fitness), 0 ≤ x)
    (hpos : 0 < (ops.scale (cw.map fun c => c.fitness)).sum)
    (hu0 : 0 ≤ ops.next_f64 s.rng_state)
    (hu1 : ops.next_f64 s.rng_state < 1) :
    s.choose ops cw ≠ none
    ∧ ∀ i, s.choose ops cw = some i →
        (∃ t, (scan_totals 0 (ops.scale (cw.map fun c => c.fitness))).get? i = some t
          ∧ ops.next_f64 s.rng_state * (ops.scale (cw.map fun c => c.fitness)).sum < t)
        ∧ ∀ j u, j < i →
            (scan_totals 0 (ops.scale (cw.map fun c => c.fitness))).get? j = some u →
              u ≤ ops.next_f64 s.rng_state * (ops.scale (cw.map fun c => c.fitness)).sum := by
  have hne : ops.scale (cw.map fun c => c.fitness) ≠ [] := by
    intro h
    rw [h] at hpos
    exact absurd hpos (by simp)
  have hlast : (scan_totals 0 (ops.scale (cw.map fun c => c.fitness))).getLast?
      = some ((ops.scale (cw.map fun c => c.fitness)).sum) := by
    rw [scan_totals_getLast? _ 0 hne, zero_add]
  have hch : s.choose ops cw
      = first_exceeding
          (ops.next_f64 s.rng_state * (ops.scale (cw.map fun c => c.fitness)).sum)
          (scan_totals 0 (ops.scale (cw.map fun c => c.fitness))) := by
    simp only [Swarm.choose]
    rw [hlast]
  have hcplt : ops.next_f64 s.rng_state * (ops.scale (cw.map fun c => c.fitness)).sum
      < (ops.scale (cw.map fun c => c.fitness)).sum := by
    have := mul_lt_mul_of_pos_right hu1 hpos
    rwa [one_mul] at this
  have hmem : (ops.scale (cw.map fun c => c.fitness)).sum
      ∈ scan_totals 0 (ops.scale (cw.map fun c => c.fitness)) := by
    obtain ⟨hne2, hx⟩ := List.mem_getLast?_eq_getLast (show _ ∈ _ from hlast)
    rw [hx]
    exact List.getLast_mem hne2
  constructor
  · rw [hch]
    exact first_exceeding_ne_none _ _ ⟨_, hmem, hcplt⟩
  · intro i hi
    rw [hch] at hi
    obtain ⟨t, ht, hcp, hprev⟩ := first_exceeding_sound _ _ i hi
    exact ⟨⟨t, ht, hcp⟩, fun j u hj hu => hprev j u hj hu⟩

/-- C7 witness: on a snapshot with fitness values 1 and 3 (identity
scaling, draw 1/2) the scan loop returns an index — the unreachable branch
is not taken. -/
theorem C7_witness : Swarm.choose demoSwarm demoOpsHalf demoCW ≠ none :=
  (C7_selection demoSwarm demoOpsHalf demoCW
    (by norm_num [demoOpsHalf, demoOps, demoCW])
    (by norm_num [demoOpsHalf, demoOps, demoCW])
    (by norm_num [demoOpsHalf, demoOps])
    (by norm_num [demoOpsHalf, demoOps])).1

/-- C10: whenever Swarm::run completes — returning ok or the first worker
failure — the installed task generator has been cleared back to absent, so
get_round afterwards reports that no run is active. -/
theorem C10_run_clears {S : Type} (ops : SolutionOps S) (s : Swarm S)
    (tasks : TaskGenerator) (fuel : Nat) (res : Except Unit Unit) (s' : Swarm S)
    (h : s.run ops tasks fuel = some (res, s')) :
    s'.tasks = none ∧ s'.get_round = Except.ok none := by
  unfold Swarm.run at h
  cases hl : Swarm.run_loop ops fuel { s with tasks := some tasks } with
  | none => rw [hl] at h; cases h
  | some p =>
    rw [hl] at h
    dsimp at h
    have hp := Option.some.inj h
    have h2 : { p.2 with tasks := none } = s' := congrArg Prod.snd hp
    rw [← h2]
    exact ⟨rfl, rfl⟩

/-- C10 witness: a complete run against an externally stopped generator
finishes at once, and the final state has the generator cleared with
get_round reporting none. -/
theorem C10_witness :
    demoSwarm.tasks = none ∧ demoSwarm.get_round = Except.ok none :=
  C10_run_clears demoOps demoSwarm demoStoppedTasks 1 (Except.ok ())
    demoSwarm (by rfl)

end Abc
